import Mathlib

set_option linter.unusedVariables false

/-!
Shallow embedding of the curling match engine (`src/public/game.js`) and
proofs about its scoring rule, physics kinematics, collision resolution,
free-guard-zone enforcement, synchronization handlers and turn state machine.

Conventions of the embedding:
* JavaScript numbers are modelled as rationals (`ℚ`); every comparison the
  source performs between a square root `Math.sqrt(q)` (with `q ≥ 0`, always a
  sum of squares in this code) and a bound `c` is modelled by the equivalent
  comparison on squares via the helpers `sqrtLe`, `sqrtLt`, `sqrtGt` below, so
  that all definitions stay executable.
* Stones are records mirroring the `Stone` class fields; the collections are
  Lean lists in the same order as the JavaScript arrays.
-/

namespace Curling

/-! ## Constants (`game.js` lines 11-42) -/

def ICE_FRICTION : ℚ := 984 / 1000
def SWEPT_FRICTION : ℚ := 998 / 1000
def ROUGH_FRICTION : ℚ := 96 / 100
def MIN_VELOCITY : ℚ := 6 / 100
def STONE_RADIUS : ℚ := 14
def RESTITUTION : ℚ := 85 / 100
def FRICTION_DEGRADATION : ℚ := 1 / 1000
def FGZ_STONE_COUNT : ℕ := 4

def SHEET_width : ℚ := 240
def SHEET_houseRadius : ℚ := 90
def SHEET_hogLineFromEnd : ℚ := 200
def SHEET_houseCenterY : ℚ := 120
def SHEET_centerLineY : ℚ := 450

/-! ## Square-root comparison helpers

The source compares `Math.sqrt(q)` (for `q` a sum of squares, hence `q ≥ 0`)
against bounds. For `q ≥ 0` these hold: `sqrt q ≤ c ↔ 0 ≤ c ∧ q ≤ c^2`,
`sqrt q < c ↔ 0 < c ∧ q < c^2`, and `sqrt q > c ↔ c < 0 ∨ c^2 < q`.
We use the right-hand sides as executable models. -/

/-- Models `Math.sqrt q <= c` for `q ≥ 0`. -/
def sqrtLe (q c : ℚ) : Bool := 0 ≤ c && q ≤ c ^ 2

/-- Models `Math.sqrt q < c` for `q ≥ 0`. -/
def sqrtLt (q c : ℚ) : Bool := 0 < c && q < c ^ 2

/-- Models `Math.sqrt q > c` for `q ≥ 0`. -/
def sqrtGt (q c : ℚ) : Bool := c < 0 || c ^ 2 < q

/-- Squared Euclidean distance between two points. -/
def distSq (x1 y1 x2 y2 : ℚ) : ℚ := (x1 - x2) ^ 2 + (y1 - y2) ^ 2

/-! ## Stone (`game.js` lines 60-124) -/

/-- The `Stone` class: team identifier (0 = red, 1 = yellow), position,
velocity, fixed radius, and the `active` flag. -/
structure Stone where
  team : ℤ
  x : ℚ
  y : ℚ
  vx : ℚ
  vy : ℚ
  radius : ℚ
  active : Bool
  deriving Repr, DecidableEq

/-- The `new Stone(team, x, y)` constructor: zero velocity, standard radius,
active. -/
def Stone.make (team : ℤ) (x y : ℚ) : Stone :=
  { team := team, x := x, y := y, vx := 0, vy := 0,
    radius := STONE_RADIUS, active := true }

/-- Squared speed of a stone (`get speed` computes `sqrt` of this). -/
def Stone.speedSq (s : Stone) : ℚ := s.vx ^ 2 + s.vy ^ 2

/-- The `get isMoving` accessor: `speed > MIN_VELOCITY`. -/
def Stone.isMoving (s : Stone) : Bool := sqrtGt s.speedSq MIN_VELOCITY

/-! ## Zones and kinematics (`Stone.update`, `game.js` lines 79-123) -/

/-- A sweep or rough zone: center and radius (the sweep-zone timestamp only
feeds rendering fade-out and is omitted). -/
structure Zone where
  x : ℚ
  y : ℚ
  radius : ℚ
  deriving Repr, DecidableEq

/-- The zone-proximity test in `Stone.update`:
`sqrt((x-zone.x)^2+(y-zone.y)^2) < zone.radius + radius * 0.5`. -/
def zoneContains (z : Zone) (px py r : ℚ) : Bool :=
  sqrtLt (distSq px py z.x z.y) (z.radius + r * (1 / 2))

/-- One kinematics tick of `Stone.update(sweepZones, roughZones, currentEnd)`:
move by velocity, pick the friction factor (base degraded by end, overridden
by rough zones, overridden again by swept zones), apply it, and hard-stop if
the resulting speed falls below `MIN_VELOCITY`. -/
def Stone.update (s : Stone) (sweepZones roughZones : List Zone)
    (currentEnd : ℕ) : Stone :=
  if !s.active then s else
  let x := s.x + s.vx
  let y := s.y + s.vy
  let baseFriction := ICE_FRICTION - ((currentEnd : ℚ) - 1) * FRICTION_DEGRADATION
  let frictionAfterRough :=
    if roughZones.any (fun z => zoneContains z x y s.radius) then ROUGH_FRICTION
    else baseFriction
  let friction :=
    if sweepZones.any (fun z => zoneContains z x y s.radius) then SWEPT_FRICTION
    else frictionAfterRough
  let vx := s.vx * friction
  let vy := s.vy * friction
  if sqrtLt (vx ^ 2 + vy ^ 2) MIN_VELOCITY then
    { s with x := x, y := y, vx := 0, vy := 0 }
  else
    { s with x := x, y := y, vx := vx, vy := vy }

/-- Iterated kinematics: `N` consecutive `Stone.update` ticks with the same
zone sets and end number. -/
def Stone.updateN (s : Stone) (sweepZones roughZones : List Zone)
    (currentEnd : ℕ) : ℕ → Stone
  | 0 => s
  | n + 1 => (s.updateN sweepZones roughZones currentEnd n).update
      sweepZones roughZones currentEnd

/-- The friction factor as the specification words it (section 4.1): swept
friction takes precedence, then rough friction, then the base coefficient
degraded linearly with the end number. The zone tests use the center the tick
actually tests: the position after the move. The kinematics theorems prove
that `Stone.update` applies exactly this factor. -/
def frictionSpec (s : Stone) (sweepZones roughZones : List Zone)
    (currentEnd : ℕ) : ℚ :=
  if ∃ z ∈ sweepZones, zoneContains z (s.x + s.vx) (s.y + s.vy) s.radius = true then
    SWEPT_FRICTION
  else if ∃ z ∈ roughZones, zoneContains z (s.x + s.vx) (s.y + s.vy) s.radius = true then
    ROUGH_FRICTION
  else ICE_FRICTION - ((currentEnd : ℚ) - 1) * FRICTION_DEGRADATION

/-! ## The stepper's moving test (`PhysicsEngine.anyMoving`, lines 225-227) -/

/-- The `anyMoving` getter: `this.stones.some(s => s.isMoving)`. Note the
source checks every stone, with no filter on the `active` flag. -/
def anyMoving (stones : List Stone) : Bool := stones.any Stone.isMoving

/-! ## Collision resolution (`resolveCollision`, `game.js` lines 187-223) -/

/-- The pairwise collision response `resolveCollision(a, b)`. The source
computes `d = Math.sqrt(dx*dx + dy*dy)`; the embedding receives that value
`d` as an argument, and the theorems characterize it by `0 ≤ d` together with
`d * d = dx^2 + dy^2`. Velocities receive the equal-mass restitution impulse
with opposite signs; positions are separated by half the overlap along the
collision normal. -/
def resolveCollision (a b : Stone) (d : ℚ) : Stone × Stone :=
  if !a.active || !b.active then (a, b) else
  let dx := b.x - a.x
  let dy := b.y - a.y
  let minDist := a.radius + b.radius
  if d < minDist ∧ d > 0 then
    let nx := dx / d
    let ny := dy / d
    let dvx := a.vx - b.vx
    let dvy := a.vy - b.vy
    let dvDotN := dvx * nx + dvy * ny
    if dvDotN ≤ 0 then (a, b)
    else
      let impulse := dvDotN * RESTITUTION
      let overlap := minDist - d
      ({ a with
          vx := a.vx - impulse * nx
          vy := a.vy - impulse * ny
          x := a.x - overlap * (1 / 2) * nx
          y := a.y - overlap * (1 / 2) * ny },
       { b with
          vx := b.vx + impulse * nx
          vy := b.vy + impulse * ny
          x := b.x + overlap * (1 / 2) * nx
          y := b.y + overlap * (1 / 2) * ny })
  else (a, b)

/-! ## Scoring (`calculateScore`, `game.js` lines 701-728) -/

/-- One entry of the `inHouse` array: `{team, distance}`, the distance stored
squared. -/
structure HouseEntry where
  team : ℤ
  distSq : ℚ
  deriving Repr, DecidableEq

/-- Comparator of the `sort((a, b) => a.distance - b.distance)` call (on
nonnegative distances, comparing squares agrees with comparing distances). -/
def entryLe (a b : HouseEntry) : Prop := a.distSq ≤ b.distSq

instance : DecidableRel entryLe := fun a b => inferInstanceAs (Decidable (_ ≤ _))

instance : IsTotal HouseEntry entryLe := ⟨fun a b => le_total a.distSq b.distSq⟩

instance : IsTrans HouseEntry entryLe := ⟨fun _ _ _ h1 h2 => le_trans h1 h2⟩

/-- Squared distance from a stone to the house center
`{x: SHEET.width / 2, y: SHEET.houseCenterY}`. -/
def houseDistSq (s : Stone) : ℚ := distSq s.x s.y (SHEET_width / 2) SHEET_houseCenterY

/-- The in-house filter of `calculateScore`:
`s.active && dist(s, houseCenter) <= houseRadius + STONE_RADIUS`. -/
def inHousePred (s : Stone) : Bool :=
  s.active && sqrtLe (houseDistSq s) (SHEET_houseRadius + STONE_RADIUS)

/-- The unsorted `{team, distance}` entries of the active stones in the house. -/
def houseEntries (stones : List Stone) : List HouseEntry :=
  (stones.filter inHousePred).map (fun s => ⟨s.team, houseDistSq s⟩)

/-- The `inHouse` array: filtered entries sorted ascending by distance.
JavaScript `Array.prototype.sort` is stable, as is `List.insertionSort`. -/
def inHouseSorted (stones : List Stone) : List HouseEntry :=
  (houseEntries stones).insertionSort entryLe

/-- Result record `{team, points}` of `calculateScore`; `team = -1` encodes a
blank round. -/
structure ScoreResult where
  team : ℤ
  points : ℕ
  deriving Repr, DecidableEq

/-- The scoring rule `calculateScore(stones)`. -/
def calculateScore (stones : List Stone) : ScoreResult :=
  match inHouseSorted stones with
  | [] => ⟨-1, 0⟩
  | closest :: _ =>
    let closestTeam := closest.team
    let closestOpponent := (inHouseSorted stones).find? (fun e => e.team != closestTeam)
    let points := (inHouseSorted stones).countP (fun e =>
      e.team == closestTeam &&
        match closestOpponent with
        | none => true
        | some o => decide (e.distSq < o.distSq))
    ⟨closestTeam, points⟩

/-- A red stone at distance 10 from the button. -/
def redAtTen : Stone := Stone.make 0 130 120

/-- A yellow stone also at distance 10 from the button. -/
def yellowAtTen : Stone := Stone.make 1 110 120

/-! ## Free guard zone enforcement (`enforceFreeGuardZone`, lines 1697-1749) -/

/-- The `currentStone` search (lines 1716-1720): a same-team stone, not
moving, within tolerance 1 of the snapshot position in each coordinate. -/
def fgzCurrentStonePred (pre s : Stone) : Bool :=
  s.team == pre.team && ! s.isMoving &&
    decide (|s.x - pre.x| < 1) && decide (|s.y - pre.y| < 1)

/-- The `displaced` search (lines 1725-1728): a same-team active stone moved
more than 2 from the snapshot position in some coordinate. -/
def fgzDisplacedPred (pre s : Stone) : Bool :=
  s.team == pre.team && s.active &&
    (decide (|s.x - pre.x| > 2) || decide (|s.y - pre.y| > 2))

/-- The free-guard-zone membership test (lines 1711-1712): short of the hog
line and strictly outside house radius plus stone radius. -/
def fgzInZone (pre : Stone) : Bool :=
  decide (pre.y ≤ SHEET_hogLineFromEnd) &&
    sqrtGt (distSq pre.x pre.y (SHEET_width / 2) SHEET_houseCenterY)
      (SHEET_houseRadius + STONE_RADIUS)

/-- Replace the first element satisfying `p` by its image under `f` — the
JavaScript `find` returns a reference that lines 1730-1733 mutate in place. -/
def updateFirst (p : Stone → Bool) (f : Stone → Stone) : List Stone → List Stone
  | [] => []
  | s :: rest => if p s then f s :: rest else s :: updateFirst p f rest

/-- The penalty of lines 1740-1744: read the LAST element of the stones array
and set it inactive when its team is the current team. Note that by the time
this runs the re-create branch may already have pushed the restored stone, so
the last element is not necessarily the just-thrown stone. -/
def retireLastIfTeam (currentTeam : ℤ) (stones : List Stone) : List Stone :=
  match stones.getLast? with
  | none => stones
  | some last =>
    if last.team == currentTeam then
      stones.dropLast ++ [{ last with active := false }]
    else stones

/-- The body of the `for (const pre of this.preThrowPositions)` loop for one
snapshot entry. -/
def fgzProcessPre (currentTeam : ℤ) (stones : List Stone) (pre : Stone) :
    List Stone :=
  if pre.team == currentTeam then stones
  else if ! pre.active then stones
  else if ! fgzInZone pre then stones
  else if (stones.find? (fgzCurrentStonePred pre)).isSome then stones
  else
    let restored :=
      match stones.find? (fgzDisplacedPred pre) with
      | some _ => updateFirst (fgzDisplacedPred pre)
          (fun s => { s with x := pre.x, y := pre.y, vx := 0, vy := 0 }) stones
      | none => stones ++ [Stone.make pre.team pre.x pre.y]
    retireLastIfTeam currentTeam restored

/-- The rule enforcer `enforceFreeGuardZone()`: applies only while the total
number of stones thrown (the current throw included) is at most
`FGZ_STONE_COUNT`, then processes every snapshot entry in order. -/
def enforceFreeGuardZone (stonesThrown0 stonesThrown1 : ℕ) (currentTeam : ℤ)
    (preThrowPositions stones : List Stone) : List Stone :=
  if FGZ_STONE_COUNT < stonesThrown0 + stonesThrown1 then stones
  else preThrowPositions.foldl (fgzProcessPre currentTeam) stones

/-! ## Stone synchronization (`applyStoneSyncFromRemote`, lines 1112-1122) -/

/-- One record of a `sync-stones` payload: team, position, velocity, active
flag (the shape produced by the sender's `map` at lines 1671-1673). -/
structure StoneData where
  team : ℤ
  x : ℚ
  y : ℚ
  vx : ℚ
  vy : ℚ
  active : Bool
  deriving Repr, DecidableEq

/-- Decoding of one payload record: `new Stone(sd.team, sd.x, sd.y)` followed
by assignments of `vx`, `vy`, `active`. -/
def decodeStoneData (sd : StoneData) : Stone :=
  { Stone.make sd.team sd.x sd.y with vx := sd.vx, vy := sd.vy, active := sd.active }

/-- The handler `applyStoneSyncFromRemote(stonesData)`: rebuilds the whole
stones array from the payload, discarding the previous local array. -/
def applyStoneSyncFromRemote (stones : List Stone) (stonesData : List StoneData) :
    List Stone :=
  stonesData.map decodeStoneData

/-! ## Concrete instances used in witnesses and counterexamples -/

/-- The stone set of the worked example in the specification: two red stones
at distances 10 and 20 from the button, one yellow stone at distance 15. -/
def exampleTwoRedOneYellow : List Stone :=
  [Stone.make 0 130 120, Stone.make 0 140 120, Stone.make 1 135 120]

/-- The worked example with the last two stones exchanged. -/
def exampleSwapped : List Stone :=
  [Stone.make 0 130 120, Stone.make 1 135 120, Stone.make 0 140 120]

/-- A stone that is retired (`active = false`) but still carries a large
velocity, as a `sync-stones` payload may legitimately install. -/
def inactiveFastStone : Stone :=
  { team := 0, x := 0, y := 0, vx := 1, vy := 0, radius := STONE_RADIUS,
    active := false }

/-- A stone at rest at the center of `patchZone`. -/
def restingStone : Stone :=
  { team := 0, x := 100, y := 300, vx := 0, vy := 0, radius := STONE_RADIUS,
    active := true }

/-- A small ice patch centered where `restingStone` rests. -/
def patchZone : Zone := { x := 100, y := 300, radius := 20 }

/-- A stone gliding rightward from the center of `bigPatch`. -/
def glidingStone : Stone :=
  { team := 0, x := 100, y := 300, vx := 1, vy := 0, radius := STONE_RADIUS,
    active := true }

/-- A large ice patch that covers `glidingStone` through its first tick. -/
def bigPatch : Zone := { x := 100, y := 300, radius := 50 }

/-! ## Match turn state machine (`game.js` lines 1349-1466, 1633-1695)

The slice of `GameManager` that the turn logic reads and writes: the phase
tag, the two `stonesThrown` counters and `currentTeam`. Teams are encoded as
`Bool` (`false` = team 0 red, `true` = team 1 yellow); the source's
`otherTeam = currentTeam === 0 ? 1 : 0` becomes Boolean negation. -/

/-- The phase tag (`this.state`) of the in-end machine. -/
inductive Phase
  | aiming
  | aim_locked
  | waiting
  | cooldown
  | end_over
  deriving Repr, DecidableEq

/-- The turn-machine slice of the mutable `GameManager` state. -/
structure MatchState where
  phase : Phase
  stonesThrown0 : ℕ
  stonesThrown1 : ℕ
  currentTeam : Bool
  deriving Repr, DecidableEq

/-- `this.stonesThrown[team]`. -/
def MatchState.thrownOf (s : MatchState) (team : Bool) : ℕ :=
  if team then s.stonesThrown1 else s.stonesThrown0

/-- `this.stonesThrown[0] + this.stonesThrown[1]`. -/
def MatchState.totalThrown (s : MatchState) : ℕ :=
  s.stonesThrown0 + s.stonesThrown1

/-- `this.stonesThrown[team]++`. -/
def MatchState.incThrown (s : MatchState) (team : Bool) : MatchState :=
  if team then { s with stonesThrown1 := s.stonesThrown1 + 1 }
  else { s with stonesThrown0 := s.stonesThrown0 + 1 }

/-- The turn advance `nextTurn()` (lines 1445-1466): with 16 or more stones
thrown, `endEnd()` runs and sets the phase to `end_over`; otherwise the turn
passes to the other team when that team has thrown fewer than 8 stones, and
the phase becomes `cooldown`. -/
def nextTurn (s : MatchState) : MatchState :=
  if 16 ≤ s.totalThrown then { s with phase := .end_over }
  else
    let otherTeam := ! s.currentTeam
    let cur := if s.thrownOf otherTeam < 8 then otherTeam else s.currentTeam
    { s with currentTeam := cur, phase := .cooldown }

/-- Labels of the turn-machine transitions. -/
inductive StepLabel
  | lockAim
  | cancelAim
  | launch
  | timeoutSkip
  | settle
  | cooldownEnd
  deriving Repr, DecidableEq

/-- The two labels that throw (or forfeit) a stone. -/
def StepLabel.isThrow : StepLabel → Bool
  | .launch => true
  | .timeoutSkip => true
  | _ => false

/-- One transition of the turn state machine. `launch` covers both the local
`launchStone()` (guarded by `state === aim_locked` at line 1349) and the
remote `launchStoneFromAction`: increment the thrower's counter and enter
`waiting`. `timeoutSkip` is the aim-timer expiry of lines 1633-1650 (possible
while `aiming` or `aim_locked`): count a thrown stone and call `nextTurn`
directly. `settle` fires when `waiting` ends with `anyMoving` false (lines
1664-1686) and calls `nextTurn`; the enforcement passes there never touch
`stonesThrown`. `cooldownEnd` is the cooldown timer expiry (lines 1653-1662). -/
inductive Step : StepLabel → MatchState → MatchState → Prop
  | lockAim (s : MatchState) (h : s.phase = .aiming) :
      Step .lockAim s { s with phase := .aim_locked }
  | cancelAim (s : MatchState) (h : s.phase = .aim_locked) :
      Step .cancelAim s { s with phase := .aiming }
  | launch (s : MatchState) (h : s.phase = .aim_locked) :
      Step .launch s { s.incThrown s.currentTeam with phase := .waiting }
  | timeoutSkip (s : MatchState) (h : s.phase = .aiming ∨ s.phase = .aim_locked) :
      Step .timeoutSkip s (nextTurn (s.incThrown s.currentTeam))
  | settle (s : MatchState) (h : s.phase = .waiting) :
      Step .settle s (nextTurn s)
  | cooldownEnd (s : MatchState) (h : s.phase = .cooldown) :
      Step .cooldownEnd s { s with phase := .aiming }

/-- The state `startEnd()` (lines 1160-1170) creates: counters cleared, phase
`aiming`, first team decided by the hammer. -/
def initState (firstTeam : Bool) : MatchState :=
  { phase := .aiming, stonesThrown0 := 0, stonesThrown1 := 0,
    currentTeam := firstTeam }

/-- States reachable within one end. -/
inductive Reachable : MatchState → Prop
  | init (firstTeam : Bool) : Reachable (initState firstTeam)
  | step {l : StepLabel} {s s' : MatchState} (hr : Reachable s)
      (hs : Step l s s') : Reachable s'

/-- The inductive invariant of the turn machine. -/
def MachineInv (s : MatchState) : Prop :=
  s.stonesThrown0 ≤ 8 ∧ s.stonesThrown1 ≤ 8 ∧
  ((s.phase = .aiming ∨ s.phase = .aim_locked ∨ s.phase = .cooldown) →
    s.thrownOf s.currentTeam < 8 ∧ s.totalThrown ≤ 15) ∧
  (s.phase = .end_over → s.totalThrown = 16)

/-- Snapshot of an opponent guard: an active yellow stone in the free guard
zone (short of the hog line, outside the house). -/
def fgzGuardPre : Stone :=
  { team := 1, x := 10, y := 150, vx := 0, vy := 0, radius := STONE_RADIUS,
    active := true }

/-- The same guard after the throw: knocked far away and retired. -/
def fgzKnockedOut : Stone :=
  { team := 1, x := 10, y := 900, vx := 0, vy := 0, radius := STONE_RADIUS,
    active := false }

/-- The red stone that was just thrown and has settled. -/
def fgzThrown : Stone :=
  { team := 0, x := 120, y := 100, vx := 0, vy := 0, radius := STONE_RADIUS,
    active := true }

/-! ## Scoring lemmas -/

theorem inHouseSorted_perm (stones : List Stone) :
    (inHouseSorted stones).Perm (houseEntries stones) :=
  List.perm_insertionSort entryLe (houseEntries stones)

theorem inHouseSorted_sorted (stones : List Stone) :
    List.Sorted entryLe (inHouseSorted stones) :=
  List.sorted_insertionSort entryLe (houseEntries stones)

theorem inHouseSorted_eq_nil_iff (stones : List Stone) :
    inHouseSorted stones = [] ↔ houseEntries stones = [] := by
  constructor
  · intro h
    have := (inHouseSorted_perm stones).symm
    rw [h] at this
    exact this.eq_nil
  · intro h
    have := inHouseSorted_perm stones
    rw [h] at this
    exact this.eq_nil

/-- In a list sorted ascending by distance, `find?` returns an element whose
distance is minimal among the elements satisfying the predicate. -/
theorem sorted_find?_le {l : List HouseEntry} (hs : List.Sorted entryLe l)
    {p : HouseEntry → Bool} {o : HouseEntry} (ho : l.find? p = some o)
    {x : HouseEntry} (hx : x ∈ l) (hpx : p x = true) : o.distSq ≤ x.distSq := by
  induction l with
  | nil => simp at ho
  | cons a t ih =>
    by_cases hpa : p a = true
    · rw [List.find?_cons_of_pos _ hpa, Option.some.injEq] at ho
      subst ho
      rcases List.mem_cons.1 hx with rfl | hxt
      · exact le_refl _
      · exact List.rel_of_sorted_cons hs x hxt
    · rw [List.find?_cons_of_neg _ (by simpa using hpa)] at ho
      rcases List.mem_cons.1 hx with rfl | hxt
      · exact absurd hpx hpa
      · exact ih hs.of_cons ho hxt

/-- The head of a list sorted ascending by distance has minimal distance. -/
theorem sorted_head_le {e : HouseEntry} {t : List HouseEntry}
    (hs : List.Sorted entryLe (e :: t)) :
    ∀ f ∈ e :: t, e.distSq ≤ f.distSq := by
  intro f hf
  rcases List.mem_cons.1 hf with rfl | hft
  · exact le_refl _
  · exact List.rel_of_sorted_cons hs f hft

/-! ## Theorems -/

/-- Concrete evaluation of the specification's worked example. -/
theorem calculateScore_example_eval :
    calculateScore exampleTwoRedOneYellow = ⟨0, 1⟩ := by
  have h10 : ((1 : ℤ) != 0) = true := by decide
  have h00 : ((0 : ℤ) != 0) = false := by decide
  have e10 : ((1 : ℤ) == 0) = false := by decide
  have e00 : ((0 : ℤ) == 0) = true := by decide
  norm_num [calculateScore, inHouseSorted, houseEntries, inHousePred,
    exampleTwoRedOneYellow, Stone.make, sqrtLe, houseDistSq, distSq, SHEET_width,
    SHEET_houseCenterY, SHEET_houseRadius, STONE_RADIUS, List.insertionSort,
    List.orderedInsert, entryLe, List.find?, List.countP_cons, h10, h00, e10, e00]

/-- Full characterization of `calculateScore`, shared by the scoring
theorems below. -/
theorem calculateScore_characterization (stones : List Stone) :
    (houseEntries stones = [] → calculateScore stones = ⟨-1, 0⟩) ∧
    (houseEntries stones ≠ [] →
      (∃ e ∈ houseEntries stones,
        (∀ f ∈ houseEntries stones, e.distSq ≤ f.distSq) ∧
        (calculateScore stones).team = e.team) ∧
      (calculateScore stones).points = (houseEntries stones).countP (fun f =>
        f.team == (calculateScore stones).team &&
          decide (∀ g ∈ houseEntries stones,
            g.team ≠ (calculateScore stones).team → f.distSq < g.distSq))) ∧
    calculateScore stones = calculateScore (stones.filter inHousePred) ∧
    calculateScore exampleTwoRedOneYellow = ⟨0, 1⟩ := by
  refine ⟨?_, ?_, ?_, calculateScore_example_eval⟩
  · intro h
    simp [calculateScore, (inHouseSorted_eq_nil_iff stones).2 h]
  · intro h
    have hnil : inHouseSorted stones ≠ [] :=
      fun hs => h ((inHouseSorted_eq_nil_iff stones).1 hs)
    obtain ⟨c, rest, hSort⟩ : ∃ c rest, inHouseSorted stones = c :: rest := by
      cases hs : inHouseSorted stones with
      | nil => exact absurd hs hnil
      | cons c rest => exact ⟨c, rest, rfl⟩
    have hperm : (inHouseSorted stones).Perm (houseEntries stones) :=
      inHouseSorted_perm stones
    have hsorted := inHouseSorted_sorted stones
    have hres : calculateScore stones = ⟨c.team,
        (inHouseSorted stones).countP (fun e =>
          e.team == c.team &&
            match (inHouseSorted stones).find? (fun g => g.team != c.team) with
            | none => true
            | some o => decide (e.distSq < o.distSq))⟩ := by
      conv_lhs => rw [calculateScore]
      rw [hSort]
    have hcmem : c ∈ houseEntries stones :=
      hperm.subset (hSort ▸ List.mem_cons_self c rest)
    have hcmin : ∀ f ∈ houseEntries stones, c.distSq ≤ f.distSq := by
      intro f hf
      have hf' : f ∈ inHouseSorted stones := hperm.mem_iff.2 hf
      exact sorted_head_le (hSort ▸ hsorted) f (hSort ▸ hf')
    constructor
    · exact ⟨c, hcmem, hcmin, by rw [hres]⟩
    · rw [hres]
      refine hperm.countP_congr ?_
      intro e he
      rcases hteam : (e.team == c.team) with _ | _
      · simp [hteam]
      · simp only [hteam, Bool.true_and]
        cases hfind : (inHouseSorted stones).find? (fun g => g.team != c.team) with
        | none =>
          have hall := List.find?_eq_none.1 hfind
          have : ∀ g ∈ houseEntries stones, g.team ≠ c.team → e.distSq < g.distSq := by
            intro g hg hgt
            exact absurd (by simpa using hall g (hperm.mem_iff.2 hg)) (by simpa using hgt)
          simpa using this
        | some o =>
          have ho_mem : o ∈ inHouseSorted stones := List.mem_of_find?_eq_some hfind
          have ho_team : o.team ≠ c.team := by
            have := List.find?_some hfind
            simpa using this
          rw [show (match (some o : Option HouseEntry) with
              | none => true
              | some o => decide (e.distSq < o.distSq)) =
              decide (e.distSq < o.distSq) from rfl]
          rw [decide_eq_decide]
          constructor
          · intro hlt g hg hgt
            have hg' : g ∈ inHouseSorted stones := hperm.mem_iff.2 hg
            have hqg : (fun g => g.team != c.team) g = true := by simpa using hgt
            exact lt_of_lt_of_le hlt (sorted_find?_le hsorted hfind hg' hqg)
          · intro hall
            exact hall o (hperm.subset ho_mem) ho_team
  · have hfe : houseEntries (stones.filter inHousePred) = houseEntries stones := by
      simp [houseEntries, List.filter_filter]
    simp [calculateScore, inHouseSorted, hfe]

/-- Claim C2: `calculateScore` considers exactly the active stones within
house outer radius plus stone radius of the house center; with none of those
it returns the blank result; otherwise it returns the team of a closest such
stone together with the number of that team's in-house stones strictly closer
than every in-house stone of the other team; and on the worked example (two
red stones at distances 10 and 20, one yellow at 15) it returns red with one
point. -/
theorem calculateScore_correct (stones : List Stone) :
    (houseEntries stones = [] → calculateScore stones = ⟨-1, 0⟩) ∧
    (houseEntries stones ≠ [] →
      (∃ e ∈ houseEntries stones,
        (∀ f ∈ houseEntries stones, e.distSq ≤ f.distSq) ∧
        (calculateScore stones).team = e.team) ∧
      (calculateScore stones).points = (houseEntries stones).countP (fun f =>
        f.team == (calculateScore stones).team &&
          decide (∀ g ∈ houseEntries stones,
            g.team ≠ (calculateScore stones).team → f.distSq < g.distSq))) ∧
    calculateScore stones = calculateScore (stones.filter inHousePred) ∧
    calculateScore exampleTwoRedOneYellow = ⟨0, 1⟩ :=
  calculateScore_characterization stones

/-- Concrete evaluation of the worked example's in-house entries. -/
theorem houseEntries_example_eval :
    houseEntries exampleTwoRedOneYellow = [⟨0, 100⟩, ⟨0, 400⟩, ⟨1, 225⟩] := by
  norm_num [houseEntries, inHousePred, exampleTwoRedOneYellow, Stone.make,
    sqrtLe, houseDistSq, distSq, SHEET_width, SHEET_houseCenterY,
    SHEET_houseRadius, STONE_RADIUS]

/-- Witness for claim C2 at the worked example. -/
theorem calculateScore_correct_witness :
    houseEntries exampleTwoRedOneYellow ≠ [] ∧
    (∃ e ∈ houseEntries exampleTwoRedOneYellow,
      (∀ f ∈ houseEntries exampleTwoRedOneYellow, e.distSq ≤ f.distSq) ∧
      (calculateScore exampleTwoRedOneYellow).team = e.team) ∧
    calculateScore exampleTwoRedOneYellow = ⟨0, 1⟩ := by
  have hne : houseEntries exampleTwoRedOneYellow ≠ [] := by
    rw [houseEntries_example_eval]
    simp
  exact ⟨hne, ((calculateScore_correct exampleTwoRedOneYellow).2.1 hne).1,
    (calculateScore_correct exampleTwoRedOneYellow).2.2.2⟩

/-- Claim C3 counterexample: with a red and a yellow stone both at distance 10
from the button, swapping their order in the input changes the reported team
(the stable sort breaks the cross-team tie by input order), so `calculateScore`
is not permutation-invariant on sets with cross-team distance ties. -/
theorem calculateScore_perm_counterexample :
    List.Perm [redAtTen, yellowAtTen] [yellowAtTen, redAtTen] ∧
    calculateScore [redAtTen, yellowAtTen] ≠
      calculateScore [yellowAtTen, redAtTen] := by
  have h10 : ((1 : ℤ) != 0) = true := by decide
  have h00 : ((0 : ℤ) != 0) = false := by decide
  have h01 : ((0 : ℤ) != 1) = true := by decide
  have h11 : ((1 : ℤ) != 1) = false := by decide
  have e10 : ((1 : ℤ) == 0) = false := by decide
  have e00 : ((0 : ℤ) == 0) = true := by decide
  have e01 : ((0 : ℤ) == 1) = false := by decide
  have e11 : ((1 : ℤ) == 1) = true := by decide
  refine ⟨List.Perm.swap yellowAtTen redAtTen [], ?_⟩
  norm_num [calculateScore, inHouseSorted, houseEntries, inHousePred,
    redAtTen, yellowAtTen, Stone.make, sqrtLe, houseDistSq, distSq, SHEET_width,
    SHEET_houseCenterY, SHEET_houseRadius, STONE_RADIUS, List.insertionSort,
    List.orderedInsert, entryLe, List.find?, List.countP_cons,
    h10, h00, h01, h11, e10, e00, e01, e11]

/-- Claim C3 (amended): `calculateScore` returns the same result on any
permutation of the stone set, provided the minimal in-house distance is
attained by stones of one team only; on a cross-team tie at the minimal
distance the reported team follows input order. -/
theorem calculateScore_perm_invariant (l₁ l₂ : List Stone)
    (hperm : l₁.Perm l₂)
    (hmin : ∀ e ∈ houseEntries l₁, ∀ f ∈ houseEntries l₁,
      (∀ g ∈ houseEntries l₁, e.distSq ≤ g.distSq) →
      (∀ g ∈ houseEntries l₁, f.distSq ≤ g.distSq) → e.team = f.team) :
    calculateScore l₁ = calculateScore l₂ := by
  have hE : (houseEntries l₁).Perm (houseEntries l₂) :=
    (hperm.filter inHousePred).map _
  by_cases hemp : houseEntries l₁ = []
  · have hemp₂ : houseEntries l₂ = [] := by
      have := hE
      rw [hemp] at this
      exact this.symm.eq_nil
    rw [(calculateScore_characterization l₁).1 hemp, (calculateScore_characterization l₂).1 hemp₂]
  · have hemp₂ : houseEntries l₂ ≠ [] := by
      intro h
      rw [h] at hE
      exact hemp hE.eq_nil
    obtain ⟨⟨e₁, he₁, hmin₁, hteam₁⟩, hpts₁⟩ := (calculateScore_characterization l₁).2.1 hemp
    obtain ⟨⟨e₂, he₂, hmin₂, hteam₂⟩, hpts₂⟩ := (calculateScore_characterization l₂).2.1 hemp₂
    have he₂1 : e₂ ∈ houseEntries l₁ := hE.mem_iff.2 he₂
    have hmin₂1 : ∀ g ∈ houseEntries l₁, e₂.distSq ≤ g.distSq :=
      fun g hg => hmin₂ g (hE.subset hg)
    have ht : (calculateScore l₁).team = (calculateScore l₂).team := by
      rw [hteam₁, hteam₂]
      exact hmin e₁ he₁ e₂ he₂1 hmin₁ hmin₂1
    have hp : (calculateScore l₁).points = (calculateScore l₂).points := by
      rw [hpts₁, hpts₂, ← ht]
      refine hE.countP_congr ?_
      intro x hx
      refine congrArg (fun b => (x.team == (calculateScore l₁).team) && b) ?_
      rw [decide_eq_decide]
      exact ⟨fun h g hg => h g (hE.mem_iff.2 hg), fun h g hg => h g (hE.subset hg)⟩
    have h1 : calculateScore l₁ = ⟨(calculateScore l₁).team, (calculateScore l₁).points⟩ := rfl
    have h2 : calculateScore l₂ = ⟨(calculateScore l₂).team, (calculateScore l₂).points⟩ := rfl
    rw [h1, h2, ht, hp]

/-- Witness for the amended claim C3 at a concrete permutation pair. -/
theorem calculateScore_perm_invariant_witness :
    calculateScore exampleTwoRedOneYellow = calculateScore exampleSwapped := by
  have hEv := houseEntries_example_eval
  refine calculateScore_perm_invariant _ _
    ((List.Perm.swap (Stone.make 1 135 120) (Stone.make 0 140 120) []).cons
      (Stone.make 0 130 120)) ?_
  rw [hEv]
  intro e he f hf hme hmf
  have hme' := hme ⟨0, 100⟩ (by simp)
  have hmf' := hmf ⟨0, 100⟩ (by simp)
  rcases List.mem_cons.1 he with rfl | he'
  · rcases List.mem_cons.1 hf with rfl | hf'
    · rfl
    · rcases List.mem_cons.1 hf' with rfl | hf''
      · norm_num at hmf'
      · rcases List.mem_singleton.1 hf'' with rfl
        norm_num at hmf'
  · rcases List.mem_cons.1 he' with rfl | he''
    · norm_num at hme'
    · rcases List.mem_singleton.1 he'' with rfl
      norm_num at hme'

/-- Claim C4: applying a `sync-stones` message replaces the entire local stone
collection with exactly the stones described in the payload (team, position,
velocity, active flag), independent of the previous local stone set, and
applying the same payload twice yields the same state as applying it once. -/
theorem applyStoneSync_replace_and_idempotent
    (stones stones' : List Stone) (stonesData : List StoneData) :
    List.Forall₂ (fun sd st => st.team = sd.team ∧ st.x = sd.x ∧ st.y = sd.y ∧
        st.vx = sd.vx ∧ st.vy = sd.vy ∧ st.active = sd.active)
      stonesData (applyStoneSyncFromRemote stones stonesData) ∧
    applyStoneSyncFromRemote stones stonesData =
      applyStoneSyncFromRemote stones' stonesData ∧
    applyStoneSyncFromRemote (applyStoneSyncFromRemote stones stonesData) stonesData =
      applyStoneSyncFromRemote stones stonesData := by
  refine ⟨?_, rfl, rfl⟩
  induction stonesData with
  | nil => exact List.Forall₂.nil
  | cons sd rest ih =>
    exact List.Forall₂.cons ⟨rfl, rfl, rfl, rfl, rfl, rfl⟩ ih

/-- Claim C5 counterexample: `anyMoving` does not consult the `active` flag:
on a collection whose only stone is inactive yet fast, `anyMoving` is `true`
although no active stone is moving, refuting the claimed equivalence. -/
theorem anyMoving_ignores_active_counterexample :
    ¬ (anyMoving [inactiveFastStone] = true ↔
        ∃ s ∈ [inactiveFastStone], s.active = true ∧ s.isMoving = true) := by
  norm_num [anyMoving, inactiveFastStone, Stone.isMoving, sqrtGt, Stone.speedSq,
    MIN_VELOCITY]

/-- Claim C5 (amended): `anyMoving` is `true` iff some stone of the
collection — active or not — has speed above the minimum-velocity threshold;
the `active` flag is not consulted. -/
theorem anyMoving_iff_some_stone_moving (stones : List Stone) :
    anyMoving stones = true ↔ ∃ s ∈ stones, s.isMoving = true := by
  simp [anyMoving, List.any_eq_true]

/-! ## Kinematics lemmas -/

theorem sqrtLt_min_iff (q : ℚ) :
    sqrtLt q MIN_VELOCITY = true ↔ q < MIN_VELOCITY ^ 2 := by
  simp only [sqrtLt, Bool.and_eq_true, decide_eq_true_eq]
  constructor
  · exact fun h => h.2
  · exact fun h => ⟨by norm_num [MIN_VELOCITY], h⟩

/-- An inactive stone is untouched by a kinematics tick. -/
theorem stoneUpdate_inactive (s : Stone) (sw rz : List Zone) (e : ℕ)
    (h : s.active = false) : s.update sw rz e = s := by
  rw [Stone.update, h]
  rfl

/-- A kinematics tick never changes the team, radius or `active` flag. -/
theorem stoneUpdate_preserves (s : Stone) (sw rz : List Zone) (e : ℕ) :
    (s.update sw rz e).team = s.team ∧ (s.update sw rz e).radius = s.radius ∧
    (s.update sw rz e).active = s.active := by
  rw [Stone.update]
  dsimp only
  repeat' split
  all_goals exact ⟨rfl, rfl, rfl⟩

/-- Full case analysis of one kinematics tick of an active stone: position
moves by the velocity, and the velocity is either hard-stopped at zero (when
the scaled speed falls below threshold) or scaled by exactly `frictionSpec`. -/
theorem stoneUpdate_cases (s : Stone) (sw rz : List Zone) (e : ℕ)
    (h : s.active = true) :
    (s.update sw rz e).x = s.x + s.vx ∧
    (s.update sw rz e).y = s.y + s.vy ∧
    (((s.vx * frictionSpec s sw rz e) ^ 2 + (s.vy * frictionSpec s sw rz e) ^ 2 <
          MIN_VELOCITY ^ 2 ∧
        (s.update sw rz e).vx = 0 ∧ (s.update sw rz e).vy = 0) ∨
      (¬ ((s.vx * frictionSpec s sw rz e) ^ 2 + (s.vy * frictionSpec s sw rz e) ^ 2 <
          MIN_VELOCITY ^ 2) ∧
        (s.update sw rz e).vx = s.vx * frictionSpec s sw rz e ∧
        (s.update sw rz e).vy = s.vy * frictionSpec s sw rz e)) := by
  have hf : (if sw.any (fun z => zoneContains z (s.x + s.vx) (s.y + s.vy) s.radius)
        then SWEPT_FRICTION
        else if rz.any (fun z => zoneContains z (s.x + s.vx) (s.y + s.vy) s.radius)
          then ROUGH_FRICTION
          else ICE_FRICTION - ((e : ℚ) - 1) * FRICTION_DEGRADATION) =
      frictionSpec s sw rz e := by
    rw [frictionSpec]
    simp only [List.any_eq_true]
  have hupd : s.update sw rz e =
      if sqrtLt ((s.vx * frictionSpec s sw rz e) ^ 2 +
          (s.vy * frictionSpec s sw rz e) ^ 2) MIN_VELOCITY then
        { s with x := s.x + s.vx, y := s.y + s.vy, vx := 0, vy := 0 }
      else
        { s with
          x := s.x + s.vx
          y := s.y + s.vy
          vx := s.vx * frictionSpec s sw rz e
          vy := s.vy * frictionSpec s sw rz e } := by
    rw [Stone.update, h]
    simp only [Bool.not_true, Bool.false_eq_true, if_false]
    rw [hf]
  rw [hupd]
  by_cases hstop : ((s.vx * frictionSpec s sw rz e) ^ 2 +
      (s.vy * frictionSpec s sw rz e) ^ 2) < MIN_VELOCITY ^ 2
  · rw [if_pos ((sqrtLt_min_iff _).2 hstop)]
    exact ⟨rfl, rfl, Or.inl ⟨hstop, rfl, rfl⟩⟩
  · rw [if_neg (fun hc => hstop ((sqrtLt_min_iff _).1 hc))]
    exact ⟨rfl, rfl, Or.inr ⟨hstop, rfl, rfl⟩⟩

/-- Claim C7: on a kinematics tick of an active stone the position moves by
the velocity and the velocity is multiplied by the friction factor selected
as in `frictionSpec` — the swept value when a swept zone covers the center
within zone radius plus half the stone radius (swept wins over rough), else
the rough value when a rough zone covers it, else the base coefficient
degraded linearly with the end number — and if the resulting speed is below
the minimum-velocity threshold both velocity components become exactly 0. -/
theorem stoneUpdate_friction_rule (s : Stone) (sweepZones roughZones : List Zone)
    (currentEnd : ℕ) (hactive : s.active = true) :
    (s.update sweepZones roughZones currentEnd).x = s.x + s.vx ∧
    (s.update sweepZones roughZones currentEnd).y = s.y + s.vy ∧
    ((s.vx * frictionSpec s sweepZones roughZones currentEnd) ^ 2 +
        (s.vy * frictionSpec s sweepZones roughZones currentEnd) ^ 2 <
        MIN_VELOCITY ^ 2 →
      (s.update sweepZones roughZones currentEnd).vx = 0 ∧
      (s.update sweepZones roughZones currentEnd).vy = 0) ∧
    (¬ ((s.vx * frictionSpec s sweepZones roughZones currentEnd) ^ 2 +
        (s.vy * frictionSpec s sweepZones roughZones currentEnd) ^ 2 <
        MIN_VELOCITY ^ 2) →
      (s.update sweepZones roughZones currentEnd).vx =
        s.vx * frictionSpec s sweepZones roughZones currentEnd ∧
      (s.update sweepZones roughZones currentEnd).vy =
        s.vy * frictionSpec s sweepZones roughZones currentEnd) := by
  obtain ⟨hx, hy, hcase⟩ := stoneUpdate_cases s sweepZones roughZones currentEnd hactive
  refine ⟨hx, hy, ?_, ?_⟩
  · intro hlt
    rcases hcase with ⟨_, h1, h2⟩ | ⟨hn, _, _⟩
    · exact ⟨h1, h2⟩
    · exact absurd hlt hn
  · intro hge
    rcases hcase with ⟨hl, _, _⟩ | ⟨_, h1, h2⟩
    · exact absurd hl hge
    · exact ⟨h1, h2⟩

/-- Witness for claim C7: a rightward-moving stone on plain ice in end 1 keeps
direction and is scaled by the base friction factor. -/
theorem stoneUpdate_friction_rule_witness :
    (⟨0, 0, 0, 1, 0, 14, true⟩ : Stone).active = true ∧
    ¬ (((1 : ℚ) * frictionSpec ⟨0, 0, 0, 1, 0, 14, true⟩ [] [] 1) ^ 2 +
        ((0 : ℚ) * frictionSpec ⟨0, 0, 0, 1, 0, 14, true⟩ [] [] 1) ^ 2 <
        MIN_VELOCITY ^ 2) ∧
    (Stone.update ⟨0, 0, 0, 1, 0, 14, true⟩ [] [] 1).vx =
      1 * frictionSpec ⟨0, 0, 0, 1, 0, 14, true⟩ [] [] 1 := by
  have hF : frictionSpec ⟨0, 0, 0, 1, 0, 14, true⟩ [] [] 1 = ICE_FRICTION := by
    norm_num [frictionSpec]
  have hnot : ¬ (((1 : ℚ) * frictionSpec ⟨0, 0, 0, 1, 0, 14, true⟩ [] [] 1) ^ 2 +
      ((0 : ℚ) * frictionSpec ⟨0, 0, 0, 1, 0, 14, true⟩ [] [] 1) ^ 2 <
      MIN_VELOCITY ^ 2) := by
    rw [hF]
    norm_num [ICE_FRICTION, MIN_VELOCITY]
  exact ⟨rfl, hnot,
    ((stoneUpdate_friction_rule ⟨0, 0, 0, 1, 0, 14, true⟩ [] [] 1 rfl).2.2.2 hnot).1⟩

/-- Claim C6: a single `resolveCollision` call on two active stones that
overlap (`0 < d < r1 + r2`) and are approaching leaves their centers exactly
`r1 + r2` apart — the half-overlap separation removes the interpenetration —
hence at distance at least `r1 + r2 − ε` for every `0 ≤ ε ≤ r1 + r2`. -/
theorem resolveCollision_separates (a b : Stone) (d : ℚ)
    (ha : a.active = true) (hb : b.active = true)
    (hd : d * d = (b.x - a.x) ^ 2 + (b.y - a.y) ^ 2)
    (hd0 : 0 < d) (hlt : d < a.radius + b.radius)
    (happ : 0 < (a.vx - b.vx) * ((b.x - a.x) / d) +
        (a.vy - b.vy) * ((b.y - a.y) / d)) :
    distSq (resolveCollision a b d).2.x (resolveCollision a b d).2.y
        (resolveCollision a b d).1.x (resolveCollision a b d).1.y =
      (a.radius + b.radius) ^ 2 ∧
    ∀ ε : ℚ, 0 ≤ ε → ε ≤ a.radius + b.radius →
      (a.radius + b.radius - ε) ^ 2 ≤
        distSq (resolveCollision a b d).2.x (resolveCollision a b d).2.y
          (resolveCollision a b d).1.x (resolveCollision a b d).1.y := by
  have hne : d ≠ 0 := ne_of_gt hd0
  have hnot : ¬ ((a.vx - b.vx) * ((b.x - a.x) / d) +
      (a.vy - b.vy) * ((b.y - a.y) / d) ≤ 0) := not_le.2 happ
  have hres : resolveCollision a b d =
      ({ a with
          vx := a.vx - ((a.vx - b.vx) * ((b.x - a.x) / d) +
            (a.vy - b.vy) * ((b.y - a.y) / d)) * RESTITUTION * ((b.x - a.x) / d)
          vy := a.vy - ((a.vx - b.vx) * ((b.x - a.x) / d) +
            (a.vy - b.vy) * ((b.y - a.y) / d)) * RESTITUTION * ((b.y - a.y) / d)
          x := a.x - (a.radius + b.radius - d) * (1 / 2) * ((b.x - a.x) / d)
          y := a.y - (a.radius + b.radius - d) * (1 / 2) * ((b.y - a.y) / d) },
       { b with
          vx := b.vx + ((a.vx - b.vx) * ((b.x - a.x) / d) +
            (a.vy - b.vy) * ((b.y - a.y) / d)) * RESTITUTION * ((b.x - a.x) / d)
          vy := b.vy + ((a.vx - b.vx) * ((b.x - a.x) / d) +
            (a.vy - b.vy) * ((b.y - a.y) / d)) * RESTITUTION * ((b.y - a.y) / d)
          x := b.x + (a.radius + b.radius - d) * (1 / 2) * ((b.x - a.x) / d)
          y := b.y + (a.radius + b.radius - d) * (1 / 2) * ((b.y - a.y) / d) }) := by
    rw [resolveCollision]
    simp only [ha, hb, Bool.not_true, Bool.or_self, Bool.false_eq_true, if_false]
    rw [if_pos ⟨hlt, hd0⟩, if_neg hnot]
  have hmain : distSq (resolveCollision a b d).2.x (resolveCollision a b d).2.y
      (resolveCollision a b d).1.x (resolveCollision a b d).1.y =
      (a.radius + b.radius) ^ 2 := by
    rw [hres]
    simp only [distSq]
    field_simp
    linear_combination (-4 : ℚ) * (a.radius + b.radius) ^ 2 * hd
  refine ⟨hmain, ?_⟩
  intro ε hε0 hεm
  rw [hmain]
  nlinarith [hε0, hεm]

/-- Claim C10: `resolveCollision` preserves the componentwise sum of the two
stones' velocities in every branch — the impulse is added to one stone and
subtracted from the other, so total momentum is unchanged whether or not the
impulse branch fires. -/
theorem resolveCollision_momentum (a b : Stone) (d : ℚ) :
    (resolveCollision a b d).1.vx + (resolveCollision a b d).2.vx =
      a.vx + b.vx ∧
    (resolveCollision a b d).1.vy + (resolveCollision a b d).2.vy =
      a.vy + b.vy := by
  unfold resolveCollision
  dsimp only
  split
  · exact ⟨rfl, rfl⟩
  · split
    · split
      · exact ⟨rfl, rfl⟩
      · constructor <;> (dsimp only; ring)
    · exact ⟨rfl, rfl⟩

/-- Witness for claim C6: two touching-overlap stones 20 apart with radii 14,
the left one sliding into the right one, end up exactly 28 apart. -/
theorem resolveCollision_separates_witness :
    (⟨0, 0, 0, 1, 0, 14, true⟩ : Stone).active = true ∧
    (0 : ℚ) < 20 ∧ (20 : ℚ) < 14 + 14 ∧
    distSq (resolveCollision ⟨0, 0, 0, 1, 0, 14, true⟩ ⟨1, 20, 0, 0, 0, 14, true⟩ 20).2.x
        (resolveCollision ⟨0, 0, 0, 1, 0, 14, true⟩ ⟨1, 20, 0, 0, 0, 14, true⟩ 20).2.y
        (resolveCollision ⟨0, 0, 0, 1, 0, 14, true⟩ ⟨1, 20, 0, 0, 0, 14, true⟩ 20).1.x
        (resolveCollision ⟨0, 0, 0, 1, 0, 14, true⟩ ⟨1, 20, 0, 0, 0, 14, true⟩ 20).1.y =
      (14 + 14 : ℚ) ^ 2 :=
  ⟨rfl, by norm_num, by norm_num,
    (resolveCollision_separates ⟨0, 0, 0, 1, 0, 14, true⟩ ⟨1, 20, 0, 0, 0, 14, true⟩ 20
      rfl rfl (by norm_num) (by norm_num) (by norm_num) (by norm_num)).1⟩

/-! ## Iterated kinematics lemmas -/

theorem speedSq_nonneg (s : Stone) : 0 ≤ s.speedSq := by
  unfold Stone.speedSq
  positivity

theorem speedSq_eq_zero_iff (s : Stone) : s.speedSq = 0 ↔ s.vx = 0 ∧ s.vy = 0 := by
  unfold Stone.speedSq
  constructor
  · intro h
    have h1 : s.vx ^ 2 = 0 := by nlinarith [sq_nonneg s.vx, sq_nonneg s.vy]
    have h2 : s.vy ^ 2 = 0 := by nlinarith [sq_nonneg s.vx, sq_nonneg s.vy]
    exact ⟨pow_eq_zero_iff two_ne_zero |>.1 h1, pow_eq_zero_iff two_ne_zero |>.1 h2⟩
  · rintro ⟨h1, h2⟩
    rw [h1, h2]
    ring

theorem updateN_active (s : Stone) (sw rz : List Zone) (e n : ℕ) :
    (s.updateN sw rz e n).active = s.active := by
  induction n with
  | zero => rfl
  | succ n ih =>
    rw [Stone.updateN, (stoneUpdate_preserves (s.updateN sw rz e n) sw rz e).2.2]
    exact ih

/-- In a run whose every tick finds the stone inside a swept zone, as long as
the stone has not stopped its velocity is exactly the launch velocity scaled
by the swept friction factor per tick. -/
theorem sweptRun_velocity (s : Stone) (sz rb : List Zone) (e : ℕ)
    (hactive : s.active = true) :
    ∀ n, (∀ k < n, ∃ z ∈ sz, zoneContains z
        ((s.updateN sz rb e k).x + (s.updateN sz rb e k).vx)
        ((s.updateN sz rb e k).y + (s.updateN sz rb e k).vy)
        (s.updateN sz rb e k).radius = true) →
      (s.updateN sz rb e n).speedSq ≠ 0 →
      (s.updateN sz rb e n).vx = s.vx * SWEPT_FRICTION ^ n ∧
      (s.updateN sz rb e n).vy = s.vy * SWEPT_FRICTION ^ n := by
  intro n
  induction n with
  | zero =>
    intro _ _
    constructor <;> simp [Stone.updateN]
  | succ n ih =>
    intro hcont hne
    have htact : (s.updateN sz rb e n).active = true := by
      rw [updateN_active]
      exact hactive
    have hF : frictionSpec (s.updateN sz rb e n) sz rb e = SWEPT_FRICTION := by
      rw [frictionSpec, if_pos (hcont n (Nat.lt_succ_self n))]
    have hupd : s.updateN sz rb e (n + 1) =
        (s.updateN sz rb e n).update sz rb e := by
      rw [Stone.updateN]
    obtain ⟨_, _, hcase⟩ := stoneUpdate_cases (s.updateN sz rb e n) sz rb e htact
    have htne : (s.updateN sz rb e n).speedSq ≠ 0 := by
      intro h0
      obtain ⟨hvx, hvy⟩ := (speedSq_eq_zero_iff _).1 h0
      apply hne
      rw [hupd, speedSq_eq_zero_iff]
      rcases hcase with ⟨_, h1, h2⟩ | ⟨_, h1, h2⟩
      · exact ⟨h1, h2⟩
      · exact ⟨by rw [h1, hvx, zero_mul], by rw [h2, hvy, zero_mul]⟩
    obtain ⟨ihx, ihy⟩ := ih (fun k hk => hcont k (Nat.lt_succ_of_lt hk)) htne
    rcases hcase with ⟨_, h1, h2⟩ | ⟨_, h1, h2⟩
    · exfalso
      apply hne
      rw [hupd, speedSq_eq_zero_iff]
      exact ⟨h1, h2⟩
    · constructor
      · rw [hupd, h1, hF, ihx]
        ring
      · rw [hupd, h2, hF, ihy]
        ring

/-- In a run with no swept zones whose every tick finds the stone inside a
rough zone, the squared speed is bounded by the launch speed scaled by the
rough friction factor per tick. -/
theorem roughRun_speed_le (s : Stone) (rz : List Zone) (e : ℕ)
    (hactive : s.active = true) :
    ∀ n, (∀ k < n, ∃ z ∈ rz, zoneContains z
        ((s.updateN [] rz e k).x + (s.updateN [] rz e k).vx)
        ((s.updateN [] rz e k).y + (s.updateN [] rz e k).vy)
        (s.updateN [] rz e k).radius = true) →
      (s.updateN [] rz e n).speedSq ≤ s.speedSq * (ROUGH_FRICTION ^ n) ^ 2 := by
  intro n
  induction n with
  | zero =>
    intro _
    simp [Stone.updateN]
  | succ n ih =>
    intro hcont
    have htact : (s.updateN [] rz e n).active = true := by
      rw [updateN_active]
      exact hactive
    have hF : frictionSpec (s.updateN [] rz e n) [] rz e = ROUGH_FRICTION := by
      rw [frictionSpec, if_neg (by simp), if_pos (hcont n (Nat.lt_succ_self n))]
    have hupd : s.updateN [] rz e (n + 1) =
        (s.updateN [] rz e n).update [] rz e := by
      rw [Stone.updateN]
    have hih := ih (fun k hk => hcont k (Nat.lt_succ_of_lt hk))
    obtain ⟨_, _, hcase⟩ := stoneUpdate_cases (s.updateN [] rz e n) [] rz e htact
    rcases hcase with ⟨_, h1, h2⟩ | ⟨_, h1, h2⟩
    · rw [hupd, (speedSq_eq_zero_iff _).2 ⟨h1, h2⟩]
      exact mul_nonneg (speedSq_nonneg s) (sq_nonneg _)
    · have hsp : ((s.updateN [] rz e n).update [] rz e).speedSq =
          (s.updateN [] rz e n).speedSq * ROUGH_FRICTION ^ 2 := by
        unfold Stone.speedSq
        rw [h1, h2, hF]
        ring
      rw [hupd, hsp]
      calc (s.updateN [] rz e n).speedSq * ROUGH_FRICTION ^ 2
          ≤ s.speedSq * (ROUGH_FRICTION ^ n) ^ 2 * ROUGH_FRICTION ^ 2 :=
            mul_le_mul_of_nonneg_right hih (sq_nonneg _)
        _ = s.speedSq * (ROUGH_FRICTION ^ (n + 1)) ^ 2 := by ring

/-- Claim C9 counterexample: a stone at rest inside the patch stays at rest in
both the rough and the swept scenario, so after one tick its speed is equal in
the two scenarios, not strictly smaller in the rough one. -/
theorem rough_vs_swept_counterexample :
    restingStone.active = true ∧
    (∀ k < 1, ∃ z ∈ [patchZone], zoneContains z
        ((restingStone.updateN [] [patchZone] 1 k).x +
          (restingStone.updateN [] [patchZone] 1 k).vx)
        ((restingStone.updateN [] [patchZone] 1 k).y +
          (restingStone.updateN [] [patchZone] 1 k).vy)
        (restingStone.updateN [] [patchZone] 1 k).radius = true) ∧
    (∀ k < 1, ∃ z ∈ [patchZone], zoneContains z
        ((restingStone.updateN [patchZone] [] 1 k).x +
          (restingStone.updateN [patchZone] [] 1 k).vx)
        ((restingStone.updateN [patchZone] [] 1 k).y +
          (restingStone.updateN [patchZone] [] 1 k).vy)
        (restingStone.updateN [patchZone] [] 1 k).radius = true) ∧
    ¬ ((restingStone.updateN [] [patchZone] 1 1).speedSq <
        (restingStone.updateN [patchZone] [] 1 1).speedSq) := by
  have hcont : zoneContains patchZone (100 + 0) (300 + 0) STONE_RADIUS = true := by
    norm_num [zoneContains, patchZone, sqrtLt, distSq, STONE_RADIUS]
  refine ⟨rfl, ?_, ?_, ?_⟩
  · intro k hk
    rw [Nat.lt_one_iff.mp hk]
    exact ⟨patchZone, by simp, hcont⟩
  · intro k hk
    rw [Nat.lt_one_iff.mp hk]
    exact ⟨patchZone, by simp, hcont⟩
  · have hz : ∀ sw rz : List Zone,
        (restingStone.updateN sw rz 1 1).speedSq = 0 := by
      intro sw rz
      have h0 : restingStone.updateN sw rz 1 1 = restingStone.update sw rz 1 := by
        rw [Stone.updateN, Stone.updateN]
      rw [h0]
      obtain ⟨_, _, hcase⟩ := stoneUpdate_cases restingStone sw rz 1 rfl
      rcases hcase with ⟨_, h1, h2⟩ | ⟨_, h1, h2⟩
      · exact (speedSq_eq_zero_iff _).2 ⟨h1, h2⟩
      · refine (speedSq_eq_zero_iff _).2 ⟨?_, ?_⟩
        · rw [h1]
          norm_num [restingStone]
        · rw [h2]
          norm_num [restingStone]
    rw [hz, hz]
    exact lt_irrefl 0

/-- Claim C9 (amended): with at least one tick, a stone inside a rough zone on
every tick of a sweep-free run ends strictly slower than the identical stone
inside a swept zone on every tick, provided the swept-zone stone has not been
brought to a stop after the `N` ticks (with both stones stopped the speeds are
equal, not strictly ordered). -/
theorem roughSlowerThanSwept (s : Stone) (rz sz rb : List Zone) (e N : ℕ)
    (hactive : s.active = true) (hN : 1 ≤ N)
    (hrough : ∀ k < N, ∃ z ∈ rz, zoneContains z
        ((s.updateN [] rz e k).x + (s.updateN [] rz e k).vx)
        ((s.updateN [] rz e k).y + (s.updateN [] rz e k).vy)
        (s.updateN [] rz e k).radius = true)
    (hswept : ∀ k < N, ∃ z ∈ sz, zoneContains z
        ((s.updateN sz rb e k).x + (s.updateN sz rb e k).vx)
        ((s.updateN sz rb e k).y + (s.updateN sz rb e k).vy)
        (s.updateN sz rb e k).radius = true)
    (hmoving : (s.updateN sz rb e N).speedSq ≠ 0) :
    (s.updateN [] rz e N).speedSq < (s.updateN sz rb e N).speedSq := by
  obtain ⟨hvx, hvy⟩ := sweptRun_velocity s sz rb e hactive N hswept hmoving
  have hA := roughRun_speed_le s rz e hactive N hrough
  have hBspeed : (s.updateN sz rb e N).speedSq =
      s.speedSq * (SWEPT_FRICTION ^ N) ^ 2 := by
    unfold Stone.speedSq
    rw [hvx, hvy]
    ring
  have hs0 : s.speedSq ≠ 0 := by
    intro h0
    apply hmoving
    rw [hBspeed, h0, zero_mul]
  have hspos : 0 < s.speedSq := lt_of_le_of_ne (speedSq_nonneg s) (Ne.symm hs0)
  have hr0 : (0 : ℚ) < ROUGH_FRICTION := by norm_num [ROUGH_FRICTION]
  have hrw : ROUGH_FRICTION < SWEPT_FRICTION := by
    norm_num [ROUGH_FRICTION, SWEPT_FRICTION]
  have h3 : ROUGH_FRICTION ^ N < SWEPT_FRICTION ^ N :=
    pow_lt_pow_left₀ hrw (le_of_lt hr0) (Nat.one_le_iff_ne_zero.mp hN)
  have hpow : (ROUGH_FRICTION ^ N) ^ 2 < (SWEPT_FRICTION ^ N) ^ 2 :=
    pow_lt_pow_left₀ h3 (le_of_lt (pow_pos hr0 N)) two_ne_zero
  calc (s.updateN [] rz e N).speedSq
      ≤ s.speedSq * (ROUGH_FRICTION ^ N) ^ 2 := hA
    _ < s.speedSq * (SWEPT_FRICTION ^ N) ^ 2 := mul_lt_mul_of_pos_left hpow hspos
    _ = (s.updateN sz rb e N).speedSq := hBspeed.symm

/-- Witness for the amended claim C9 at one tick of a gliding stone. -/
theorem roughSlowerThanSwept_witness :
    (glidingStone.updateN [] [bigPatch] 1 1).speedSq <
      (glidingStone.updateN [bigPatch] [] 1 1).speedSq := by
  have hcont : zoneContains bigPatch (100 + 1) (300 + 0) STONE_RADIUS = true := by
    norm_num [zoneContains, bigPatch, sqrtLt, distSq, STONE_RADIUS]
  refine roughSlowerThanSwept glidingStone [bigPatch] [bigPatch] [] 1 1 rfl le_rfl
    ?_ ?_ ?_
  · intro k hk
    rw [Nat.lt_one_iff.mp hk]
    exact ⟨bigPatch, by simp, hcont⟩
  · intro k hk
    rw [Nat.lt_one_iff.mp hk]
    exact ⟨bigPatch, by simp, hcont⟩
  · have h0 : glidingStone.updateN [bigPatch] [] 1 1 =
        glidingStone.update [bigPatch] [] 1 := by
      rw [Stone.updateN, Stone.updateN]
    rw [h0]
    have hF : frictionSpec glidingStone [bigPatch] [] 1 = SWEPT_FRICTION := by
      rw [frictionSpec, if_pos ⟨bigPatch, by simp, hcont⟩]
    obtain ⟨_, _, hcase⟩ := stoneUpdate_cases glidingStone [bigPatch] [] 1 rfl
    rcases hcase with ⟨hlt, _, _⟩ | ⟨_, h1, h2⟩
    · exfalso
      rw [hF] at hlt
      norm_num [glidingStone, SWEPT_FRICTION, MIN_VELOCITY] at hlt
    · intro hc
      obtain ⟨hx1, _⟩ := (speedSq_eq_zero_iff _).1 hc
      rw [h1, hF] at hx1
      norm_num [glidingStone, SWEPT_FRICTION] at hx1

/-! ## Turn state machine lemmas -/

theorem thrownOf_false (s : MatchState) : s.thrownOf false = s.stonesThrown0 := rfl

theorem thrownOf_true (s : MatchState) : s.thrownOf true = s.stonesThrown1 := rfl

theorem incThrown_false (s : MatchState) :
    s.incThrown false = { s with stonesThrown0 := s.stonesThrown0 + 1 } := rfl

theorem incThrown_true (s : MatchState) :
    s.incThrown true = { s with stonesThrown1 := s.stonesThrown1 + 1 } := rfl

theorem incThrown_totalThrown (s : MatchState) (b : Bool) :
    (s.incThrown b).totalThrown = s.totalThrown + 1 := by
  cases b
  · show s.stonesThrown0 + 1 + s.stonesThrown1 = s.stonesThrown0 + s.stonesThrown1 + 1
    omega
  · show s.stonesThrown0 + (s.stonesThrown1 + 1) = s.stonesThrown0 + s.stonesThrown1 + 1
    omega

theorem nextTurn_totalThrown (s : MatchState) :
    (nextTurn s).totalThrown = s.totalThrown := by
  rw [nextTurn]
  split
  · rfl
  · rfl

theorem machineInv_init (firstTeam : Bool) : MachineInv (initState firstTeam) := by
  refine ⟨by simp [initState], by simp [initState], ?_, ?_⟩
  · intro _
    constructor
    · cases firstTeam <;> simp [initState, MatchState.thrownOf]
    · simp [initState, MatchState.totalThrown]
  · intro hc
    simp [initState] at hc

/-- `nextTurn` preserves the invariant whenever the per-team counters are in
range. -/
theorem machineInv_nextTurn (t : MatchState) (h0 : t.stonesThrown0 ≤ 8)
    (h1 : t.stonesThrown1 ≤ 8) : MachineInv (nextTurn t) := by
  rw [nextTurn]
  by_cases h16 : 16 ≤ t.totalThrown
  · rw [if_pos h16]
    refine ⟨h0, h1, ?_, ?_⟩
    · intro hc
      rcases hc with hc | hc | hc <;> simp at hc
    · intro _
      show t.stonesThrown0 + t.stonesThrown1 = 16
      unfold MatchState.totalThrown at h16
      omega
  · rw [if_neg h16]
    unfold MatchState.totalThrown at h16
    refine ⟨h0, h1, ?_, ?_⟩
    · intro _
      constructor
      · by_cases ho : t.thrownOf (! t.currentTeam) < 8
        · show MatchState.thrownOf _ (if t.thrownOf (! t.currentTeam) < 8
              then ! t.currentTeam else t.currentTeam) < 8
          rw [if_pos ho]
          exact ho
        · show MatchState.thrownOf _ (if t.thrownOf (! t.currentTeam) < 8
              then ! t.currentTeam else t.currentTeam) < 8
          rw [if_neg ho]
          cases hteam : t.currentTeam
          · rw [hteam] at ho
            simp only [Bool.not_false, thrownOf_true] at ho
            show t.stonesThrown0 < 8
            omega
          · rw [hteam] at ho
            simp only [Bool.not_true, thrownOf_false] at ho
            show t.stonesThrown1 < 8
            omega
      · show t.stonesThrown0 + t.stonesThrown1 ≤ 15
        omega
    · intro hc
      simp at hc

theorem machineInv_step {l : StepLabel} {s s' : MatchState}
    (hinv : MachineInv s) (hstep : Step l s s') : MachineInv s' := by
  obtain ⟨h0, h1, haim, hend⟩ := hinv
  cases hstep with
  | lockAim s h =>
    exact ⟨h0, h1, fun _ => haim (Or.inl h), fun hc => by simp at hc⟩
  | cancelAim s h =>
    exact ⟨h0, h1, fun _ => haim (Or.inr (Or.inl h)), fun hc => by simp at hc⟩
  | launch s h =>
    obtain ⟨hcur, htot⟩ := haim (Or.inr (Or.inl h))
    have hinc0 : (s.incThrown s.currentTeam).stonesThrown0 ≤ 8 := by
      rcases Bool.eq_false_or_eq_true s.currentTeam with hteam | hteam <;>
        rw [hteam] at hcur ⊢
      · rw [incThrown_true]
        exact h0
      · rw [thrownOf_false] at hcur
        rw [incThrown_false]
        show s.stonesThrown0 + 1 ≤ 8
        omega
    have hinc1 : (s.incThrown s.currentTeam).stonesThrown1 ≤ 8 := by
      rcases Bool.eq_false_or_eq_true s.currentTeam with hteam | hteam <;>
        rw [hteam] at hcur ⊢
      · rw [thrownOf_true] at hcur
        rw [incThrown_true]
        show s.stonesThrown1 + 1 ≤ 8
        omega
      · rw [incThrown_false]
        exact h1
    refine ⟨hinc0, hinc1, ?_, ?_⟩
    · intro hc
      rcases hc with hc | hc | hc <;> simp at hc
    · intro hc
      simp at hc
  | timeoutSkip s h =>
    obtain ⟨hcur, htot⟩ := haim (by rcases h with h | h
                                    exacts [Or.inl h, Or.inr (Or.inl h)])
    apply machineInv_nextTurn
    · rcases Bool.eq_false_or_eq_true s.currentTeam with hteam | hteam <;>
        rw [hteam] at hcur ⊢
      · rw [incThrown_true]
        exact h0
      · rw [thrownOf_false] at hcur
        rw [incThrown_false]
        show s.stonesThrown0 + 1 ≤ 8
        omega
    · rcases Bool.eq_false_or_eq_true s.currentTeam with hteam | hteam <;>
        rw [hteam] at hcur ⊢
      · rw [thrownOf_true] at hcur
        rw [incThrown_true]
        show s.stonesThrown1 + 1 ≤ 8
        omega
      · rw [incThrown_false]
        exact h1
  | settle s h =>
    exact machineInv_nextTurn s h0 h1
  | cooldownEnd s h =>
    exact ⟨h0, h1, fun _ => haim (Or.inr (Or.inr h)), fun hc => by simp at hc⟩

theorem reachable_inv {s : MatchState} (h : Reachable s) : MachineInv s := by
  induction h with
  | init t => exact machineInv_init t
  | step hr hs ih => exact machineInv_step ih hs

/-- Claim C8: within an end, every reachable turn-machine state has at most 16
thrown stones; every throw (a launch or a timeout skip) increases the total by
exactly one and every other transition leaves it unchanged; `nextTurn` enters
`end_over` exactly when the total has reached 16 (never before); `end_over`
holds only with exactly 16 thrown; and no transition leaves `end_over`, so no
further throw occurs. -/
theorem turnMachine_invariants :
    (∀ s : MatchState, Reachable s → s.totalThrown ≤ 16 ∧
      (s.phase = .end_over → s.totalThrown = 16)) ∧
    (∀ (l : StepLabel) (s s' : MatchState), Step l s s' → l.isThrow = true →
      s'.totalThrown = s.totalThrown + 1) ∧
    (∀ (l : StepLabel) (s s' : MatchState), Step l s s' → l.isThrow = false →
      s'.totalThrown = s.totalThrown) ∧
    (∀ s : MatchState, 16 ≤ s.totalThrown → (nextTurn s).phase = .end_over) ∧
    (∀ s : MatchState, s.totalThrown < 16 → (nextTurn s).phase ≠ .end_over) ∧
    (∀ (l : StepLabel) (s s' : MatchState), Step l s s' → s.phase ≠ .end_over) := by
  refine ⟨?_, ?_, ?_, ?_, ?_, ?_⟩
  · intro s hr
    obtain ⟨h0, h1, _, hend⟩ := reachable_inv hr
    exact ⟨by unfold MatchState.totalThrown; omega, hend⟩
  · intro l s s' hstep hthrow
    cases hstep with
    | lockAim s h => simp [StepLabel.isThrow] at hthrow
    | cancelAim s h => simp [StepLabel.isThrow] at hthrow
    | launch s h => exact incThrown_totalThrown s s.currentTeam
    | timeoutSkip s h =>
      rw [nextTurn_totalThrown]
      exact incThrown_totalThrown s s.currentTeam
    | settle s h => simp [StepLabel.isThrow] at hthrow
    | cooldownEnd s h => simp [StepLabel.isThrow] at hthrow
  · intro l s s' hstep hthrow
    cases hstep with
    | lockAim s h => rfl
    | cancelAim s h => rfl
    | launch s h => simp [StepLabel.isThrow] at hthrow
    | timeoutSkip s h => simp [StepLabel.isThrow] at hthrow
    | settle s h => exact nextTurn_totalThrown s
    | cooldownEnd s h => rfl
  · intro s h16
    rw [nextTurn, if_pos h16]
  · intro s hlt
    rw [nextTurn, if_neg (by omega)]
    exact fun hc => Phase.noConfusion hc
  · intro l s s' hstep
    cases hstep with
    | lockAim s h => rw [h]; exact fun hc => Phase.noConfusion hc
    | cancelAim s h => rw [h]; exact fun hc => Phase.noConfusion hc
    | launch s h => rw [h]; exact fun hc => Phase.noConfusion hc
    | timeoutSkip s h =>
      rcases h with h | h <;> (rw [h]; exact fun hc => Phase.noConfusion hc)
    | settle s h => rw [h]; exact fun hc => Phase.noConfusion hc
    | cooldownEnd s h => rw [h]; exact fun hc => Phase.noConfusion hc

/-- A state with all 16 stones thrown, simulation settled. -/
def endOverReadyState : MatchState :=
  { phase := .waiting, stonesThrown0 := 8, stonesThrown1 := 8,
    currentTeam := false }

/-- Witness for claim C8 at concrete states: the fresh end start satisfies the
bound, a settle with 16 thrown enters `end_over`, and a concrete launch step
raises the total by one. -/
theorem turnMachine_invariants_witness :
    (initState false).totalThrown ≤ 16 ∧
    (nextTurn endOverReadyState).phase = Phase.end_over ∧
    ({ (initState false).incThrown false with phase := Phase.waiting }
        : MatchState).totalThrown =
      ({ phase := Phase.aim_locked, stonesThrown0 := 0, stonesThrown1 := 0,
          currentTeam := false } : MatchState).totalThrown + 1 := by
  refine ⟨(turnMachine_invariants.1 (initState false) (Reachable.init false)).1,
    turnMachine_invariants.2.2.2.1 endOverReadyState (by decide), ?_⟩
  exact turnMachine_invariants.2.1 .launch
    { phase := Phase.aim_locked, stonesThrown0 := 0, stonesThrown1 := 0,
      currentTeam := false } _
    (Step.launch _ rfl) rfl

/-- Claim C1 evaluated at its failing input (a code bug): on the second throw
of an end, with the opponent's free-guard-zone stone knocked out entirely (no
displaced active same-team stone exists), the enforcer re-creates the guard at
its snapshot position, active with zero velocity — but the just-thrown stone
stays active: the penalty at lines 1740-1744 reads the last array element
AFTER the restored stone was pushed, finds the opponent's restored stone
there, and its team check fails, so no stone is retired. -/
theorem enforceFGZ_recreate_keeps_thrown_active :
    enforceFreeGuardZone 1 1 0 [fgzGuardPre] [fgzKnockedOut, fgzThrown] =
      [fgzKnockedOut, fgzThrown, Stone.make 1 10 150] ∧
    (Stone.make 1 10 150).active = true ∧
    (Stone.make 1 10 150).vx = 0 ∧ (Stone.make 1 10 150).vy = 0 ∧
    fgzThrown.active = true := by
  have e00 : ((0 : ℤ) == 0) = true := by decide
  have e01 : ((0 : ℤ) == 1) = false := by decide
  have e10 : ((1 : ℤ) == 0) = false := by decide
  have e11 : ((1 : ℤ) == 1) = true := by decide
  refine ⟨?_, rfl, rfl, rfl, rfl⟩
  norm_num [e00, e01, e10, e11,
    enforceFreeGuardZone, FGZ_STONE_COUNT, fgzProcessPre, fgzInZone,
    fgzCurrentStonePred, fgzDisplacedPred, fgzGuardPre, fgzKnockedOut,
    fgzThrown, Stone.make, Stone.isMoving, Stone.speedSq, sqrtGt, sqrtLe,
    distSq, SHEET_width, SHEET_houseCenterY, SHEET_houseRadius,
    SHEET_hogLineFromEnd, STONE_RADIUS, MIN_VELOCITY, List.find?,
    retireLastIfTeam, List.getLast?, List.dropLast]

end Curling
